import Mathlib

/-!
Verification of the tenant lifecycle orchestrator of the aws_scalarhub
repository: the tenant-id slug, the registry and onboarding/deprovisioning
pipelines, the mergeable-ingress routing fragments, the deployment fan-out,
the Angular auth interceptor and the order totals component.

JavaScript strings are modelled as lists of UTF-16 code units (`List Nat`),
which is faithful to how the source's regular expressions and string
operations act on them.
-/

/-- The UTF-16 code units of an ASCII string literal (used only to write
concrete inputs readably). -/
def codes (s : String) : List Nat :=
  s.data.map Char.toNat

/-- JS word character (`\w` = `[A-Za-z0-9_]`): the complement of the class
`[\W\s]` used in `RegisterComponent.getTenantUrl`'s regex, since every `\s`
character is also `\W`. -/
def isWordCode (n : Nat) : Bool :=
  (65 ≤ n && n ≤ 90) || (97 ≤ n && n ≤ 122) || (48 ≤ n && n ≤ 57) || (n == 95)

/-- ASCII lower-casing of one code unit; `String.prototype.toLowerCase`
restricted to the word characters that survive the regex replacement. -/
def toLowerCode (n : Nat) : Nat :=
  if 65 ≤ n && n ≤ 90 then n + 32 else n

/-- `RegisterComponent.getTenantUrl`'s tenant-id derivation:
`companyName.replace(/[\W\s]+/g, '').toLowerCase()` — delete every code unit
matching `[\W\s]` (i.e. every non-word unit), then lower-case the rest. -/
def slug (s : List Nat) : List Nat :=
  (s.filter isWordCode).map toLowerCode

/-- The tenant-id derivation as the spec wording describes it
("lower-cased, non-alphanumeric stripped"): strips underscores too,
unlike the source's `\W`-based regex.  Used only to compare the spec's
wording with the source's `slug`. -/
def specTenantId (s : List Nat) : List Nat :=
  (s.filter (fun n =>
    (65 ≤ n && n ≤ 90) || (97 ≤ n && n ≤ 122) || (48 ≤ n && n ≤ 57))).map toLowerCode

theorem slug_cons_word {a : Nat} {t : List Nat} (h : isWordCode a = true) :
    slug (a :: t) = toLowerCode a :: slug t := by
  simp [slug, h]

theorem slug_cons_nonword {a : Nat} {t : List Nat} (h : isWordCode a = false) :
    slug (a :: t) = slug t := by
  simp [slug, h]

theorem toLowerCode_idem (n : Nat) : toLowerCode (toLowerCode n) = toLowerCode n := by
  unfold toLowerCode
  split <;> rename_i h <;> simp_all <;> omega

theorem isWordCode_toLowerCode {n : Nat} (h : isWordCode n = true) :
    isWordCode (toLowerCode n) = true := by
  unfold isWordCode toLowerCode at *
  split <;> rename_i h' <;> simp_all <;> omega

theorem slug_idem (s : List Nat) : slug (slug s) = slug s := by
  induction s with
  | nil => rfl
  | cons a t ih =>
    by_cases h : isWordCode a = true
    · rw [slug_cons_word h, slug_cons_word (isWordCode_toLowerCode h),
        toLowerCode_idem, ih]
    · rw [slug_cons_nonword (Bool.eq_false_iff.mpr h), ih]

theorem slug_eq_specTenantId_of_no_underscore (s : List Nat)
    (h : ∀ n ∈ s, n ≠ 95) : slug s = specTenantId s := by
  induction s with
  | nil => rfl
  | cons a t ih =>
    have ha : a ≠ 95 := h a (List.mem_cons_self a t)
    have ht : ∀ n ∈ t, n ≠ 95 := fun n hn => h n (List.mem_cons_of_mem a hn)
    simp only [slug, specTenantId, List.filter_cons] at *
    have : isWordCode a =
        ((65 ≤ a && a ≤ 90) || (97 ≤ a && a ≤ 122) || (48 ≤ a && a ≤ 57)) := by
      unfold isWordCode
      rcases Nat.lt_or_ge a 95 with h' | h' <;> rcases Nat.lt_or_ge a 96 with h'' | h'' <;>
        simp_all <;> omega
    rw [this]
    split <;> simp_all

/-- C8: the slug function (from `RegisterComponent.getTenantUrl`:
`companyName.replace(/[\W\s]+/g, '').toLowerCase()`) is deterministic —
equal inputs give equal outputs — and idempotent: `slug (slug x) = slug x`. -/
theorem C8_slug_deterministic_idempotent :
    (∀ s t : List Nat, s = t → slug s = slug t) ∧
    (∀ s : List Nat, slug (slug s) = slug s) :=
  ⟨fun _ _ h => by rw [h], slug_idem⟩

theorem C8_slug_deterministic_idempotent_witness :
    slug (codes "Acme Corp!") = slug (codes "Acme Corp!") :=
  C8_slug_deterministic_idempotent.1 (codes "Acme Corp!") (codes "Acme Corp!") rfl

/-- C1 counterexample: the claim says the tenant id is obtained by stripping
every non-alphanumeric character, but the source regex `[\W\s]` keeps
underscores (`_` is a `\w` word character), so `companyName = "Acme_Corp"`
yields tenant id `"acme_corp"`, not `"acmecorp"`. -/
theorem C1_counterexample :
    slug (codes "Acme_Corp") = codes "acme_corp" ∧
    specTenantId (codes "Acme_Corp") = codes "acmecorp" ∧
    slug (codes "Acme_Corp") ≠ specTenantId (codes "Acme_Corp") := by
  refine ⟨by decide, by decide, by decide⟩

/-- C1 (amended): the tenant id is derived deterministically from the company
name by stripping every character that is not a letter, digit or underscore
(whitespace and punctuation included) and lower-casing the rest; underscores
are kept.  Onboarding with companyName "Acme Corp!" yields tenantId
"acmecorp", and for company names containing no underscore this agrees with
stripping all non-alphanumeric characters. -/
theorem C1_tenantId_derivation :
    (∀ s t : List Nat, s = t → slug s = slug t) ∧
    slug (codes "Acme Corp!") = codes "acmecorp" ∧
    (∀ s : List Nat, (∀ n ∈ s, n ≠ 95) → slug s = specTenantId s) :=
  ⟨fun _ _ h => by rw [h], by decide, slug_eq_specTenantId_of_no_underscore⟩

theorem C1_tenantId_derivation_witness :
    slug (codes "Acme Corp!") = specTenantId (codes "Acme Corp!") :=
  C1_tenantId_derivation.2.2 (codes "Acme Corp!") (by decide)

/-! ## Routing: per-service mergeable-ingress fragments

From `EKSClusterStack`'s `PrimarySameHostMergableIngress` (the master entry
point), the per-service minion ingress manifests
(`order-service-ingress` etc.), and the tenant-deploy buildspec of
`ApplicationService`, which patches the minion's path to
`/$TENANT_ID/$SERVICE_URL_PREFIX` and applies it with
`kubectl apply -k kubernetes/ -n $TENANT_ID`.  `kubectl apply` is modelled
as a keyed upsert on the collection of ingress objects, keyed by
(namespace, ingress name). -/

/-- Whether an ingress fragment is the shared entry point or a
tenant-service-specific addition (`nginx.org/mergeable-ingress-type`). -/
inductive MergeRole where
  | master
  | minion
deriving DecidableEq, Repr

/-- One routing rule as the minion ingress manifests declare it:
host, path, backend service and port, and the merge-role annotation. -/
structure RouteRule where
  host : List Nat
  path : List Nat
  backendService : String
  backendPort : Nat
  mergeRole : MergeRole
deriving DecidableEq, Repr

/-- A downstream application service as registered in `ServicesStack`:
its name, URL prefix, and its minion ingress (name, backend, port). -/
structure AppService where
  name : String
  serviceUrlPrefix : List Nat
  ingressName : String
  backendService : String
  backendPort : Nat
deriving DecidableEq, Repr

/-- The order service: `ServicesStack` registers it with
`serviceUrlPrefix: "orders"`; its minion manifest routes
`/KUSTOMIZE_TENANT/orders` to backend `order-service` port 80 under
ingress `order-service-ingress`. -/
def orderService : AppService :=
  { name := "OrderService"
    serviceUrlPrefix := codes "orders"
    ingressName := "order-service-ingress"
    backendService := "order-service"
    backendPort := 80 }

/-- The product service: `ServicesStack` registers it with
`serviceUrlPrefix: "products"`.  Its minion manifest is not among the
provided sources; the ingress/backend names follow the same pattern as the
order service's manifest, per the spec's uniform per-service fragment rule. -/
def productService : AppService :=
  { name := "ProductService"
    serviceUrlPrefix := codes "products"
    ingressName := "product-service-ingress"
    backendService := "product-service"
    backendPort := 80 }

/-- The path patched into a tenant's minion fragment:
`/$TENANT_ID/$SERVICE_URL_PREFIX` (47 is the code of the slash). -/
def rulePath (tid pfx : List Nat) : List Nat :=
  47 :: (tid ++ 47 :: pfx)

/-- The route rule emitted for one tenant and one service by the
tenant-deploy buildspec (a minion fragment on the shared API host). -/
def routeRule (host tid : List Nat) (svc : AppService) : RouteRule :=
  { host := host
    path := rulePath tid svc.serviceUrlPrefix
    backendService := svc.backendService
    backendPort := svc.backendPort
    mergeRole := MergeRole.minion }

/-- `GenerateRoutes(tenantId, serviceList)`: one minion route rule per
service with a known URL prefix. -/
def generateRoutes (host tid : List Nat) (svcs : List AppService) : List RouteRule :=
  svcs.map (routeRule host tid)

/-- An ingress object's identity in the cluster: (namespace, ingress name).
Tenant fragments live in namespace `TENANT_ID`; the master lives in
namespace `default`. -/
abbrev RouteKey := List Nat × String

/-- The cluster's routing state: the ingress objects present, keyed by
(namespace, name). -/
abbrev RoutingState := List (RouteKey × RouteRule)

/-- The shared entry point's identity: ingress
`default-primary-mergable-ingress` in namespace `default`
(from `EKSClusterStack`). -/
def masterKey : RouteKey :=
  (codes "default", "default-primary-mergable-ingress")

/-- `kubectl apply` of one ingress object: replace the object with this
key if present, otherwise add it. -/
def upsert : RoutingState → RouteKey → RouteRule → RoutingState
  | [], k, v => [(k, v)]
  | (k', v') :: rest, k, v =>
    if k' = k then (k, v) :: rest else (k', v') :: upsert rest k v

/-- The ingress object currently stored under a key. -/
def lookupRoute : RoutingState → RouteKey → Option RouteRule
  | [], _ => none
  | (k', v') :: rest, k => if k' = k then some v' else lookupRoute rest k

/-- `kubectl delete` of one ingress object. -/
def eraseRoute (rt : RoutingState) (k : RouteKey) : RoutingState :=
  rt.filter (fun p => p.1 ≠ k)

/-- Publishing a tenant's routes: apply, for each service, that service's
minion fragment in namespace `tid` (what the tenant-deploy jobs do). -/
def publishTenantRoutes (rt : RoutingState) (host tid : List Nat)
    (svcs : List AppService) : RoutingState :=
  svcs.foldl (fun acc svc => upsert acc (tid, svc.ingressName) (routeRule host tid svc)) rt

/-- `RemoveRoutes(tenantId, serviceList)`: delete exactly that tenant's
minion fragments (tenant deletion destroys the tenant stack's objects). -/
def removeTenantRoutes (rt : RoutingState) (tid : List Nat)
    (svcs : List AppService) : RoutingState :=
  svcs.foldl (fun acc svc => eraseRoute acc (tid, svc.ingressName)) rt

theorem lookupRoute_upsert_self (rt : RoutingState) (k : RouteKey) (v : RouteRule) :
    lookupRoute (upsert rt k v) k = some v := by
  induction rt with
  | nil => simp [upsert, lookupRoute]
  | cons p rest ih =>
    obtain ⟨k', v'⟩ := p
    by_cases h : k' = k <;> simp [upsert, lookupRoute, h, ih]

theorem lookupRoute_upsert_ne (rt : RoutingState) {k k' : RouteKey} (v : RouteRule)
    (h : k' ≠ k) : lookupRoute (upsert rt k v) k' = lookupRoute rt k' := by
  induction rt with
  | nil => simp [upsert, lookupRoute, Ne.symm h]
  | cons p rest ih =>
    obtain ⟨k'', v''⟩ := p
    by_cases hk : k'' = k
    · subst hk
      simp [upsert, lookupRoute, Ne.symm h]
    · simp only [upsert, if_neg hk, lookupRoute]
      by_cases hk' : k'' = k' <;> simp [hk', ih]

theorem upsert_of_lookupRoute_eq {rt : RoutingState} {k : RouteKey} {v : RouteRule}
    (h : lookupRoute rt k = some v) : upsert rt k v = rt := by
  induction rt with
  | nil => simp [lookupRoute] at h
  | cons p rest ih =>
    obtain ⟨k', v'⟩ := p
    by_cases hk : k' = k
    · subst hk
      simp [lookupRoute] at h
      simp [upsert, h]
    · simp [lookupRoute, hk] at h
      simp [upsert, hk, ih h]

theorem upsert_upsert_same (rt : RoutingState) (k : RouteKey) (v : RouteRule) :
    upsert (upsert rt k v) k v = upsert rt k v :=
  upsert_of_lookupRoute_eq (lookupRoute_upsert_self rt k v)

theorem lookupRoute_eraseRoute_ne (rt : RoutingState) {k k' : RouteKey}
    (h : k' ≠ k) : lookupRoute (eraseRoute rt k) k' = lookupRoute rt k' := by
  induction rt with
  | nil => rfl
  | cons p rest ih =>
    obtain ⟨k'', v''⟩ := p
    by_cases hk : k'' = k
    · subst hk
      simpa [eraseRoute, lookupRoute, Ne.symm h] using ih
    · by_cases hk' : k'' = k'
      · subst hk'
        simp [eraseRoute, lookupRoute, hk]
      · simpa [eraseRoute, lookupRoute, hk, hk'] using ih

theorem lookupRoute_publish_ne (host tid : List Nat) (svcs : List AppService)
    (rt : RoutingState) (k : RouteKey)
    (h : ∀ svc ∈ svcs, (tid, svc.ingressName) ≠ k) :
    lookupRoute (publishTenantRoutes rt host tid svcs) k = lookupRoute rt k := by
  induction svcs generalizing rt with
  | nil => rfl
  | cons s ss ih =>
    have hs : (tid, s.ingressName) ≠ k := h s (List.mem_cons_self s ss)
    have hss : ∀ svc ∈ ss, (tid, svc.ingressName) ≠ k :=
      fun svc hm => h svc (List.mem_cons_of_mem s hm)
    calc lookupRoute (publishTenantRoutes (upsert rt (tid, s.ingressName)
            (routeRule host tid s)) host tid ss) k
        = lookupRoute (upsert rt (tid, s.ingressName) (routeRule host tid s)) k :=
          ih _ hss
      _ = lookupRoute rt k := lookupRoute_upsert_ne rt _ (Ne.symm hs)

theorem lookupRoute_remove_ne (tid : List Nat) (svcs : List AppService)
    (rt : RoutingState) (k : RouteKey)
    (h : ∀ svc ∈ svcs, (tid, svc.ingressName) ≠ k) :
    lookupRoute (removeTenantRoutes rt tid svcs) k = lookupRoute rt k := by
  induction svcs generalizing rt with
  | nil => rfl
  | cons s ss ih =>
    have hs : k ≠ (tid, s.ingressName) := fun hh => h s (List.mem_cons_self s ss) hh.symm
    have hss : ∀ svc ∈ ss, (tid, svc.ingressName) ≠ k :=
      fun svc hm => h svc (List.mem_cons_of_mem s hm)
    calc lookupRoute (removeTenantRoutes (eraseRoute rt (tid, s.ingressName)) tid ss) k
        = lookupRoute (eraseRoute rt (tid, s.ingressName)) k := ih _ hss
      _ = lookupRoute rt k := lookupRoute_eraseRoute_ne rt hs

theorem publishTenantRoutes_idem (host tid : List Nat) (svcs : List AppService)
    (rt : RoutingState) (hnd : (svcs.map AppService.ingressName).Nodup) :
    publishTenantRoutes (publishTenantRoutes rt host tid svcs) host tid svcs =
      publishTenantRoutes rt host tid svcs := by
  induction svcs generalizing rt with
  | nil => rfl
  | cons s ss ih =>
    simp only [List.map_cons, List.nodup_cons] at hnd
    obtain ⟨hs, hss⟩ := hnd
    have hkey : ∀ svc ∈ ss, (tid, svc.ingressName) ≠ (tid, s.ingressName) := by
      intro svc hm heq
      exact hs (by
        have : svc.ingressName = s.ingressName := congrArg Prod.snd heq
        exact this ▸ List.mem_map_of_mem AppService.ingressName hm)
    show publishTenantRoutes
        (upsert (publishTenantRoutes (upsert rt _ _) host tid ss) (tid, s.ingressName)
          (routeRule host tid s)) host tid ss = _
    have hlook :
        lookupRoute (publishTenantRoutes (upsert rt (tid, s.ingressName)
          (routeRule host tid s)) host tid ss) (tid, s.ingressName) =
        some (routeRule host tid s) := by
      rw [lookupRoute_publish_ne host tid ss _ _ hkey]
      exact lookupRoute_upsert_self rt _ _
    rw [upsert_of_lookupRoute_eq hlook]
    exact ih _ hss

theorem rulePath_inj {tid p q : List Nat} (h : rulePath tid p = rulePath tid q) :
    p = q := by
  unfold rulePath at h
  injection h with _ h'
  have h'' := List.append_cancel_left h'
  injection h''

/-- Filtering the generated rules by a path keeps exactly the rules of the
services bearing that URL prefix. -/
theorem generateRoutes_filter_path (host tid p : List Nat) (svcs : List AppService) :
    (generateRoutes host tid svcs).filter (fun r => r.path = rulePath tid p) =
      generateRoutes host tid (svcs.filter (fun s => s.serviceUrlPrefix = p)) := by
  induction svcs with
  | nil => rfl
  | cons s ss ih =>
    by_cases h : s.serviceUrlPrefix = p
    · have hp : (routeRule host tid s).path = rulePath tid p := by
        simp [routeRule, h]
      simp only [generateRoutes, List.map_cons, List.filter_cons] at ih ⊢
      simp [hp, h, ih]
    · have hp : ¬(routeRule host tid s).path = rulePath tid p := by
        intro hc
        exact h (rulePath_inj hc)
      simp only [generateRoutes, List.map_cons, List.filter_cons] at ih ⊢
      simp [hp, h, ih]

theorem filter_urlPrefix_eq_singleton {svcs : List AppService} {svc : AppService}
    (hnd : (svcs.map AppService.serviceUrlPrefix).Nodup) (hm : svc ∈ svcs) :
    svcs.filter (fun s => s.serviceUrlPrefix = svc.serviceUrlPrefix) = [svc] := by
  induction svcs with
  | nil => cases hm
  | cons s ss ih =>
    simp only [List.map_cons, List.nodup_cons] at hnd
    obtain ⟨hs, hss⟩ := hnd
    rcases List.mem_cons.mp hm with rfl | hm'
    · have : ss.filter (fun s' => s'.serviceUrlPrefix = svc.serviceUrlPrefix) = [] := by
        rw [List.filter_eq_nil_iff]
        intro s' hm' hc
        exact hs (by
          have : s'.serviceUrlPrefix = svc.serviceUrlPrefix := by simpa using hc
          exact this ▸ List.mem_map_of_mem AppService.serviceUrlPrefix hm')
      simp [List.filter_cons, this]
    · have hne : ¬s.serviceUrlPrefix = svc.serviceUrlPrefix := by
        intro hc
        exact hs (hc ▸ List.mem_map_of_mem AppService.serviceUrlPrefix hm')
      simp [List.filter_cons, hne, ih hss hm']

/-- C3: `GenerateRoutes` emits, for every tenant and every service with a
known URL prefix, exactly one route rule whose path is
`/{tenantId}/{servicePrefix}` on the shared API host, targeting that
service's backend; for tenant "acmecorp" and the product and order services
the emitted paths are `/acmecorp/products` and `/acmecorp/orders`. -/
theorem C3_generate_routes_paths :
    (∀ (host tid : List Nat) (svcs : List AppService) (svc : AppService),
        (svcs.map AppService.serviceUrlPrefix).Nodup → svc ∈ svcs →
        ((generateRoutes host tid svcs).filter
            (fun r => r.path = rulePath tid svc.serviceUrlPrefix)).length = 1 ∧
        ∀ r ∈ generateRoutes host tid svcs,
          r.path = rulePath tid svc.serviceUrlPrefix →
          r.host = host ∧ r.backendService = svc.backendService ∧
            r.backendPort = svc.backendPort) ∧
    (generateRoutes (codes "api.example.com") (codes "acmecorp")
        [productService, orderService]).map RouteRule.path =
      [codes "/acmecorp/products", codes "/acmecorp/orders"] := by
  constructor
  · intro host tid svcs svc hnd hm
    constructor
    · rw [generateRoutes_filter_path, filter_urlPrefix_eq_singleton hnd hm]
      rfl
    · intro r hr hpath
      obtain ⟨svc', hm', rfl⟩ := List.mem_map.mp hr
      have hpfx : svc'.serviceUrlPrefix = svc.serviceUrlPrefix := rulePath_inj hpath
      have : svc' = svc := List.inj_on_of_nodup_map hnd hm' hm hpfx
      subst this
      exact ⟨rfl, rfl, rfl⟩
  · decide

theorem C3_generate_routes_paths_witness :
    ((generateRoutes (codes "api.example.com") (codes "acmecorp")
        [productService, orderService]).filter
      (fun r => r.path = rulePath (codes "acmecorp") orderService.serviceUrlPrefix)).length = 1 :=
  (C3_generate_routes_paths.1 (codes "api.example.com") (codes "acmecorp")
    [productService, orderService] orderService (by decide) (by decide)).1

/-- C6: re-generating and re-applying an already-onboarded tenant's route
rule is a no-op: applying one fragment twice yields exactly the routing
state of applying it once, and re-running the whole per-tenant publish
(with distinct ingress names per service) leaves the routing state as is. -/
theorem C6_reapply_routes_noop :
    (∀ (rt : RoutingState) (k : RouteKey) (v : RouteRule),
        upsert (upsert rt k v) k v = upsert rt k v) ∧
    (∀ (rt : RoutingState) (host tid : List Nat) (svcs : List AppService),
        (svcs.map AppService.ingressName).Nodup →
        publishTenantRoutes (publishTenantRoutes rt host tid svcs) host tid svcs =
          publishTenantRoutes rt host tid svcs) :=
  ⟨upsert_upsert_same,
   fun rt host tid svcs h => publishTenantRoutes_idem host tid svcs rt h⟩

theorem C6_reapply_routes_noop_witness :
    publishTenantRoutes
        (publishTenantRoutes [] (codes "api.example.com") (codes "acmecorp")
          [productService, orderService])
        (codes "api.example.com") (codes "acmecorp")
        [productService, orderService] =
      publishTenantRoutes [] (codes "api.example.com") (codes "acmecorp")
        [productService, orderService] :=
  C6_reapply_routes_noop.2 [] (codes "api.example.com") (codes "acmecorp")
    [productService, orderService] (by decide)

/-- C4: publishing or removing routing for one tenant only touches that
tenant's own minion fragments: for tenants A ≠ B, every fragment of B is
unchanged by A's publish and by A's removal, and the shared master entry
point (whose ingress name no service fragment uses) is never edited. -/
theorem C4_tenant_route_isolation :
    (∀ (rt : RoutingState) (host A B : List Nat) (name : String)
        (svcs : List AppService), A ≠ B →
        lookupRoute (publishTenantRoutes rt host A svcs) (B, name) =
            lookupRoute rt (B, name) ∧
        lookupRoute (removeTenantRoutes rt A svcs) (B, name) =
            lookupRoute rt (B, name)) ∧
    (∀ (rt : RoutingState) (host A : List Nat) (svcs : List AppService),
        (∀ svc ∈ svcs, svc.ingressName ≠ masterKey.2) →
        lookupRoute (publishTenantRoutes rt host A svcs) masterKey =
            lookupRoute rt masterKey ∧
        lookupRoute (removeTenantRoutes rt A svcs) masterKey =
            lookupRoute rt masterKey) := by
  constructor
  · intro rt host A B name svcs hAB
    have hk : ∀ svc ∈ svcs, (A, svc.ingressName) ≠ (B, name) := by
      intro svc _ heq
      exact hAB (congrArg Prod.fst heq)
    exact ⟨lookupRoute_publish_ne host A svcs rt _ hk,
      lookupRoute_remove_ne A svcs rt _ hk⟩
  · intro rt host A svcs hname
    have hk : ∀ svc ∈ svcs, (A, svc.ingressName) ≠ masterKey := by
      intro svc hm heq
      exact hname svc hm (congrArg Prod.snd heq)
    exact ⟨lookupRoute_publish_ne host A svcs rt _ hk,
      lookupRoute_remove_ne A svcs rt _ hk⟩

theorem C4_tenant_route_isolation_witness :
    lookupRoute
        (publishTenantRoutes [] (codes "api.example.com") (codes "acmecorp")
          [productService, orderService])
        (codes "globex", "order-service-ingress") =
      lookupRoute [] (codes "globex", "order-service-ingress") :=
  (C4_tenant_route_isolation.1 [] (codes "api.example.com") (codes "acmecorp")
    (codes "globex") "order-service-ingress" [productService, orderService]
    (by decide)).1

/-! ## Deployment fan-out

From the onboarding project's `post_build` phase, which runs, for each
registered application service project name,
`aws codebuild start-build --project-name ${x}TenantDeploy
--environment-variables-override name=TENANT_ID,value="$TENANT_ID"`,
and from the `EKSTenantDeployProject` buildspec, which applies the
service's overlay with `kubectl apply -k kubernetes/ -n $TENANT_ID`. -/

/-- One CodeBuild start-build request as issued by the onboarding
project's `post_build` phase. -/
structure TriggeredBuild where
  projectName : String
  envOverrides : List (String × List Nat)
deriving DecidableEq, Repr

/-- The fan-out: one tenant-deploy trigger per registered application
service project, overriding only `TENANT_ID`. -/
def deployFanOut (names : List String) (tid : List Nat) : List TriggeredBuild :=
  names.map (fun x =>
    { projectName := x ++ "TenantDeploy", envOverrides := [("TENANT_ID", tid)] })

/-- The application service build project names `ServicesStack` passes to
`TenantOnboarding`. -/
def applicationServiceBuildProjectNames : List String :=
  ["ProductService", "OrderService"]

/-- What one service's tenant-deploy job applies (the
`EKSTenantDeployProject` buildspec): the service overlay with the path
patch `/$TENANT_ID/$SERVICE_URL_PREFIX` and service account
`$TENANT_ID-service-account`, applied in namespace `$TENANT_ID` with the
`latest` image tag. -/
structure AppliedOverlay where
  nsName : List Nat
  pathPatch : List Nat
  serviceAccount : List Nat
  imageTag : String
deriving DecidableEq, Repr

/-- The overlay application performed by one triggered tenant-deploy job. -/
def tenantDeployRun (svc : AppService) (tid : List Nat) : AppliedOverlay :=
  { nsName := tid
    pathPatch := rulePath tid svc.serviceUrlPrefix
    serviceAccount := tid ++ codes "-service-account"
    imageTag := "latest" }

/-- C5: `Deploy(tenantId, serviceList)` triggers the tenant-deploy job of
every service in the list, passing `TENANT_ID` as the sole per-tenant
parameter, and each triggered job applies that service's overlay scoped to
namespace `TENANT_ID`; for the registered product and order services the
triggered projects are `ProductServiceTenantDeploy` and
`OrderServiceTenantDeploy`. -/
theorem C5_deploy_fanout :
    (∀ (tid : List Nat) (names : List String),
        (∀ name ∈ names,
          ({ projectName := name ++ "TenantDeploy",
             envOverrides := [("TENANT_ID", tid)] } : TriggeredBuild) ∈
            deployFanOut names tid) ∧
        ∀ b ∈ deployFanOut names tid,
          b.envOverrides = [("TENANT_ID", tid)]) ∧
    (∀ (svc : AppService) (tid : List Nat),
        (tenantDeployRun svc tid).nsName = tid ∧
        (tenantDeployRun svc tid).pathPatch = rulePath tid svc.serviceUrlPrefix) ∧
    (deployFanOut applicationServiceBuildProjectNames (codes "acmecorp")).map
        TriggeredBuild.projectName =
      ["ProductServiceTenantDeploy", "OrderServiceTenantDeploy"] := by
  refine ⟨fun tid names => ⟨fun name hm => ?_, fun b hb => ?_⟩,
    fun svc tid => ⟨rfl, rfl⟩, by decide⟩
  · exact List.mem_map_of_mem _ hm
  · obtain ⟨x, _, rfl⟩ := List.mem_map.mp hb
    rfl

theorem C5_deploy_fanout_witness :
    ({ projectName := "OrderService" ++ "TenantDeploy",
       envOverrides := [("TENANT_ID", codes "acmecorp")] } : TriggeredBuild) ∈
      deployFanOut applicationServiceBuildProjectNames (codes "acmecorp") :=
  (C5_deploy_fanout.1 (codes "acmecorp") applicationServiceBuildProjectNames).1
    "OrderService" (by decide)

/-! ## Tenant registry and lifecycle pipelines

The Registry is the DynamoDB table `Tenant` of `CommonResourcesStack`,
partition-keyed by `TENANT_ID` (so one record per tenant id); the
onboarding/deletion CodeBuild projects of `TenantOnboarding` hold
`dynamodb:PutItem`/`DeleteItem` on it and `CreateTable`/`DeleteTable` on the
tenant-scoped `Order-*` tables.  The onboarding and deprovisioning service
logic itself (the tenant-onboarding CDK app and the tenant management
service) is not among the provided sources — only its infrastructure,
permissions and triggers — so the pipelines below are modelled from the
spec over that schema. -/

/-- Tenant lifecycle status. -/
inductive TenantStatus where
  | Provisioning
  | Active
  | Deprovisioning
  | Deleted
  | Failed
deriving DecidableEq, Repr

/-- Plan tier: pooled stores are shared, silo stores are per-tenant. -/
inductive Plan where
  | pooled
  | silo
deriving DecidableEq, Repr

/-- One record of the `Tenant` table: company name, admin email, plan and
status, keyed by the tenant id. -/
structure TenantRec where
  companyName : List Nat
  adminEmail : List Nat
  plan : Plan
  status : TenantStatus
deriving DecidableEq, Repr

/-- The Registry: tenant records keyed by `TENANT_ID`. -/
abbrev Registry := List (List Nat × TenantRec)

/-- Point lookup by partition key. -/
def lookupTenant : Registry → List Nat → Option TenantRec
  | [], _ => none
  | (k', v') :: rest, k => if k' = k then some v' else lookupTenant rest k

/-- `PutItem`: replace the record with this key if present, else add it. -/
def upsertTenant : Registry → List Nat → TenantRec → Registry
  | [], k, v => [(k, v)]
  | (k', v') :: rest, k, v =>
    if k' = k then (k, v) :: rest else (k', v') :: upsertTenant rest k v

/-- The tenant-scoped data resource's deterministic name
(`Order-<TENANT_ID>`, from the `Order-*` table grant). -/
def orderTableName (tid : List Nat) : List Nat :=
  codes "Order-" ++ tid

/-- Idempotent creation of a tenant-scoped resource. -/
def insertResource (rs : List (List Nat)) (r : List Nat) : List (List Nat) :=
  if r ∈ rs then rs else rs ++ [r]

/-- Modelled from the spec: the orchestrator's shared state — the Registry,
the routing layer's ingress objects, and the provisioned tenant-scoped
data resources. -/
structure SysState where
  registry : Registry
  routing : RoutingState
  resources : List (List Nat)
deriving DecidableEq, Repr

/-- Pipeline failure taxonomy (spec §7). -/
inductive PipelineError where
  | ValidationError
  | ResourceConflict
  | NotFound
  | InvalidState
deriving DecidableEq, Repr

/-- Result of one Onboard invocation. -/
inductive OnboardResult where
  | onboarded (tenantId : List Nat)
  | rejected (e : PipelineError)
deriving DecidableEq, Repr

/-- Modelled from the spec: the onboarding stages once the mutual-exclusion
gate has passed — record the tenant as Provisioning, provision the
silo-tier data resource (silo plan only), publish the routing rules for
every downstream service, fan out deployments (external triggers,
`deployFanOut`), and mark the tenant Active. -/
def onboardStages (st : SysState) (host tid companyName adminEmail : List Nat)
    (plan : Plan) (svcs : List AppService) : SysState × OnboardResult :=
  let reg1 := upsertTenant st.registry tid
    { companyName := companyName, adminEmail := adminEmail, plan := plan,
      status := TenantStatus.Provisioning }
  let res1 := if plan = Plan.silo then insertResource st.resources (orderTableName tid)
              else st.resources
  let rt1 := publishTenantRoutes st.routing host tid svcs
  let reg2 := upsertTenant reg1 tid
    { companyName := companyName, adminEmail := adminEmail, plan := plan,
      status := TenantStatus.Active }
  ({ registry := reg2, routing := rt1, resources := res1 }, OnboardResult.onboarded tid)

/-- Modelled from the spec: `Onboard(companyName, adminEmail, plan)` —
validate the input before any mutation, derive `tenantId = slug(companyName)`,
fail with `ResourceConflict` (no mutation) if a Tenant with that id exists
and is not `Failed`, else run the stages. -/
def onboard (st : SysState) (host companyName adminEmail : List Nat)
    (plan : Plan) (svcs : List AppService) : SysState × OnboardResult :=
  if companyName = [] then (st, OnboardResult.rejected PipelineError.ValidationError)
  else
    let tid := slug companyName
    match lookupTenant st.registry tid with
    | some t =>
      if t.status = TenantStatus.Failed then
        onboardStages st host tid companyName adminEmail plan svcs
      else (st, OnboardResult.rejected PipelineError.ResourceConflict)
    | none => onboardStages st host tid companyName adminEmail plan svcs

/-- Modelled from the spec: `Deprovision(tenantId)` — `NotFound` when no
record exists, `InvalidState` when the record is already `Deleted`,
otherwise remove the tenant's route fragments and tenant-scoped data
resource and set status `Deleted`. -/
def deprovision (st : SysState) (tid : List Nat) (svcs : List AppService) :
    SysState × Option PipelineError :=
  match lookupTenant st.registry tid with
  | none => (st, some PipelineError.NotFound)
  | some t =>
    if t.status = TenantStatus.Deleted then (st, some PipelineError.InvalidState)
    else
      ({ registry := upsertTenant st.registry tid { t with status := TenantStatus.Deleted }
         routing := removeTenantRoutes st.routing tid svcs
         resources := st.resources.filter (fun r => r ≠ orderTableName tid) },
       none)

theorem lookupTenant_upsert_self (reg : Registry) (k : List Nat) (v : TenantRec) :
    lookupTenant (upsertTenant reg k v) k = some v := by
  induction reg with
  | nil => simp [upsertTenant, lookupTenant]
  | cons p rest ih =>
    obtain ⟨k', v'⟩ := p
    by_cases h : k' = k <;> simp [upsertTenant, lookupTenant, h, ih]

theorem mem_keys_upsertTenant {reg : Registry} {k : List Nat} {v : TenantRec}
    {a : List Nat} :
    a ∈ (upsertTenant reg k v).map Prod.fst ↔ a ∈ reg.map Prod.fst ∨ a = k := by
  induction reg with
  | nil => simp [upsertTenant]
  | cons p rest ih =>
    obtain ⟨k', v'⟩ := p
    by_cases h : k' = k
    · have he : upsertTenant ((k', v') :: rest) k v = (k, v) :: rest := by
        simp [upsertTenant, h]
      rw [he, h]
      simp only [List.map_cons, List.mem_cons]
      tauto
    · simp only [upsertTenant, if_neg h, List.map_cons, List.mem_cons, ih]
      tauto

theorem nodup_keys_upsertTenant {reg : Registry} {k : List Nat} {v : TenantRec}
    (h : (reg.map Prod.fst).Nodup) :
    ((upsertTenant reg k v).map Prod.fst).Nodup := by
  induction reg with
  | nil => simp [upsertTenant]
  | cons p rest ih =>
    obtain ⟨k', v'⟩ := p
    simp only [List.map_cons, List.nodup_cons] at h
    obtain ⟨hk', hrest⟩ := h
    by_cases hkk : k' = k
    · have he : upsertTenant ((k', v') :: rest) k v = (k, v) :: rest := by
        simp [upsertTenant, hkk]
      rw [he]
      simp only [List.map_cons, List.nodup_cons]
      exact ⟨hkk ▸ hk', hrest⟩
    · simp only [upsertTenant, if_neg hkk, List.map_cons, List.nodup_cons]
      refine ⟨fun hm => ?_, ih hrest⟩
      rcases mem_keys_upsertTenant.mp hm with hm' | rfl
      · exact hk' hm'
      · exact hkk rfl

theorem lookupRoute_eraseRoute_self (rt : RoutingState) (k : RouteKey) :
    lookupRoute (eraseRoute rt k) k = none := by
  induction rt with
  | nil => rfl
  | cons p rest ih =>
    obtain ⟨k', v'⟩ := p
    by_cases h : k' = k
    · simpa [eraseRoute, h] using ih
    · simpa [eraseRoute, lookupRoute, h] using ih

theorem lookupRoute_none_eraseRoute {rt : RoutingState} {k : RouteKey}
    (k' : RouteKey) (h : lookupRoute rt k = none) :
    lookupRoute (eraseRoute rt k') k = none := by
  induction rt with
  | nil => rfl
  | cons p rest ih =>
    obtain ⟨k'', v''⟩ := p
    by_cases hk : k'' = k
    · simp [lookupRoute, hk] at h
    · simp only [lookupRoute, if_neg hk] at h
      by_cases hk' : k'' = k' <;> simpa [eraseRoute, lookupRoute, hk, hk'] using ih h

theorem lookupRoute_remove_none {rt : RoutingState} {tid : List Nat}
    {svcs : List AppService} {k : RouteKey} (h : lookupRoute rt k = none) :
    lookupRoute (removeTenantRoutes rt tid svcs) k = none := by
  induction svcs generalizing rt with
  | nil => exact h
  | cons s ss ih => exact ih (lookupRoute_none_eraseRoute _ h)

theorem lookupRoute_remove_mem (rt : RoutingState) (tid : List Nat)
    {svcs : List AppService} {svc : AppService} (hm : svc ∈ svcs) :
    lookupRoute (removeTenantRoutes rt tid svcs) (tid, svc.ingressName) = none := by
  induction svcs generalizing rt with
  | nil => cases hm
  | cons s ss ih =>
    rcases List.mem_cons.mp hm with rfl | hm'
    · show lookupRoute
          (removeTenantRoutes (eraseRoute rt (tid, svc.ingressName)) tid ss)
          (tid, svc.ingressName) = none
      exact lookupRoute_remove_none (lookupRoute_eraseRoute_self rt _)
    · exact ih _ hm'

/-- An Onboard call that meets an existing non-Failed record is rejected
with ResourceConflict and mutates nothing. -/
theorem onboard_conflict (st : SysState) (host c a : List Nat) (p : Plan)
    (svcs : List AppService) {t : TenantRec} (hc : c ≠ [])
    (hl : lookupTenant st.registry (slug c) = some t)
    (hs : t.status ≠ TenantStatus.Failed) :
    onboard st host c a p svcs =
      (st, OnboardResult.rejected PipelineError.ResourceConflict) := by
  simp [onboard, hc, hl, hs]

/-- C2: when two Onboard calls derive the same tenantId and the first has
left a Tenant record that is not Failed, the second call is rejected with
ResourceConflict and leaves the entire state (Registry included) unchanged;
and Onboard preserves the key-uniqueness of the Registry, which therefore
never holds two records for one tenantId. -/
theorem C2_onboard_conflict_unique :
    (∀ (st : SysState) (host c1 a1 : List Nat) (p1 : Plan)
        (svcs : List AppService) (c2 a2 : List Nat) (p2 : Plan) (t : TenantRec),
        slug c2 = slug c1 → c2 ≠ [] →
        lookupTenant ((onboard st host c1 a1 p1 svcs).1).registry (slug c1) = some t →
        t.status ≠ TenantStatus.Failed →
        onboard (onboard st host c1 a1 p1 svcs).1 host c2 a2 p2 svcs =
          ((onboard st host c1 a1 p1 svcs).1,
            OnboardResult.rejected PipelineError.ResourceConflict)) ∧
    (∀ (st : SysState) (host c a : List Nat) (p : Plan) (svcs : List AppService),
        (st.registry.map Prod.fst).Nodup →
        (((onboard st host c a p svcs).1).registry.map Prod.fst).Nodup) := by
  constructor
  · intro st host c1 a1 p1 svcs c2 a2 p2 t heq hc2 hl hs
    exact onboard_conflict _ host c2 a2 p2 svcs hc2 (heq ▸ hl) hs
  · intro st host c a p svcs hnd
    by_cases hc : c = []
    · simpa [onboard, hc] using hnd
    · simp only [onboard, if_neg hc]
      cases hlook : lookupTenant st.registry (slug c) with
      | none =>
        exact nodup_keys_upsertTenant (nodup_keys_upsertTenant hnd)
      | some t =>
        by_cases hf : t.status = TenantStatus.Failed
        · simpa [hf, onboardStages] using
            nodup_keys_upsertTenant (nodup_keys_upsertTenant hnd)
        · simpa [hf] using hnd

theorem C2_onboard_conflict_unique_witness :
    onboard
        (onboard ⟨[], [], []⟩ (codes "api.example.com") (codes "Acme Corp!")
          (codes "a@acme.com") Plan.pooled [productService, orderService]).1
        (codes "api.example.com") (codes "acme corp") (codes "b@acme.com")
        Plan.silo [productService, orderService] =
      ((onboard ⟨[], [], []⟩ (codes "api.example.com") (codes "Acme Corp!")
          (codes "a@acme.com") Plan.pooled [productService, orderService]).1,
        OnboardResult.rejected PipelineError.ResourceConflict) :=
  C2_onboard_conflict_unique.1 ⟨[], [], []⟩ (codes "api.example.com")
    (codes "Acme Corp!") (codes "a@acme.com") Plan.pooled
    [productService, orderService] (codes "acme corp") (codes "b@acme.com")
    Plan.silo
    { companyName := codes "Acme Corp!", adminEmail := codes "a@acme.com",
      plan := Plan.pooled, status := TenantStatus.Active }
    (by decide) (by decide) (by decide) (by decide)

/-- Deprovision of a tenant whose record is already Deleted is rejected
with InvalidState and mutates nothing. -/
theorem deprovision_deleted (st : SysState) (tid : List Nat)
    (svcs : List AppService) {t : TenantRec}
    (hl : lookupTenant st.registry tid = some t)
    (hd : t.status = TenantStatus.Deleted) :
    deprovision st tid svcs = (st, some PipelineError.InvalidState) := by
  simp [deprovision, hl, hd]

/-- C7: Deprovision fails with NotFound when no Tenant record exists and
with InvalidState when the Tenant is already Deleted; on an Active tenant
it removes every route fragment of that tenant, removes the tenant-scoped
data resource, sets status Deleted, and a second Deprovision of the same
tenant fails with InvalidState. -/
theorem C7_deprovision_lifecycle :
    ∀ (st : SysState) (tid : List Nat) (svcs : List AppService),
      (lookupTenant st.registry tid = none →
        deprovision st tid svcs = (st, some PipelineError.NotFound)) ∧
      (∀ t, lookupTenant st.registry tid = some t →
        t.status = TenantStatus.Deleted →
        deprovision st tid svcs = (st, some PipelineError.InvalidState)) ∧
      (∀ t, lookupTenant st.registry tid = some t →
        t.status = TenantStatus.Active →
        (deprovision st tid svcs).2 = none ∧
        (∀ svc ∈ svcs,
          lookupRoute ((deprovision st tid svcs).1).routing (tid, svc.ingressName) =
            none) ∧
        orderTableName tid ∉ ((deprovision st tid svcs).1).resources ∧
        lookupTenant ((deprovision st tid svcs).1).registry tid =
          some { t with status := TenantStatus.Deleted } ∧
        deprovision (deprovision st tid svcs).1 tid svcs =
          ((deprovision st tid svcs).1, some PipelineError.InvalidState)) := by
  intro st tid svcs
  refine ⟨fun h => by simp [deprovision, h], fun t hl hd => by simp [deprovision, hl, hd], ?_⟩
  intro t hl ha
  have hnd : t.status ≠ TenantStatus.Deleted := by
    rw [ha]
    exact fun h => TenantStatus.noConfusion h
  have hstate : (deprovision st tid svcs).1 =
      { registry := upsertTenant st.registry tid { t with status := TenantStatus.Deleted }
        routing := removeTenantRoutes st.routing tid svcs
        resources := st.resources.filter (fun r => r ≠ orderTableName tid) } := by
    simp [deprovision, hl, hnd]
  refine ⟨by simp [deprovision, hl, hnd], ?_, ?_, ?_, ?_⟩
  · intro svc hm
    rw [hstate]
    exact lookupRoute_remove_mem st.routing tid hm
  · rw [hstate]
    simp
  · rw [hstate]
    exact lookupTenant_upsert_self st.registry tid _
  · have hl2 : lookupTenant ((deprovision st tid svcs).1).registry tid =
        some { t with status := TenantStatus.Deleted } := by
      rw [hstate]
      exact lookupTenant_upsert_self st.registry tid _
    exact deprovision_deleted _ tid svcs hl2 rfl

theorem C7_deprovision_lifecycle_witness :
    (deprovision
        ⟨[(codes "acmecorp",
           { companyName := codes "Acme Corp!", adminEmail := codes "a@acme.com",
             plan := Plan.pooled, status := TenantStatus.Active })],
          publishTenantRoutes [] (codes "api.example.com") (codes "acmecorp")
            [productService, orderService],
          [orderTableName (codes "acmecorp")]⟩
        (codes "acmecorp") [productService, orderService]).2 = none :=
  ((C7_deprovision_lifecycle
      ⟨[(codes "acmecorp",
         { companyName := codes "Acme Corp!", adminEmail := codes "a@acme.com",
           plan := Plan.pooled, status := TenantStatus.Active })],
        publishTenantRoutes [] (codes "api.example.com") (codes "acmecorp")
          [productService, orderService],
        [orderTableName (codes "acmecorp")]⟩
      (codes "acmecorp") [productService, orderService]).2.2
    { companyName := codes "Acme Corp!", adminEmail := codes "a@acme.com",
      plan := Plan.pooled, status := TenantStatus.Active }
    (by decide) (by decide)).1

/-! ## The application client's auth interceptor

From `AuthInterceptor.intercept`: when no ID token is available or the
request URL contains "amazoncognito", the request is forwarded untouched;
otherwise it is cloned with the `Authorization` header set to
`Bearer <token>`.  `getIdToken()` yields the empty string when no token is
available, so "no token" is modelled as `token = ""`. -/

/-- An outgoing HTTP request as the interceptor sees it. -/
structure HttpReq where
  url : String
  method : String
  body : String
  headers : List (String × String)
deriving DecidableEq, Repr

/-- `HttpHeaders.set`: replace the named header's value, or add it. -/
def setHeader : List (String × String) → String → String → List (String × String)
  | [], k, v => [(k, v)]
  | (k', v') :: rest, k, v =>
    if k' = k then (k, v) :: rest else (k', v') :: setHeader rest k v

/-- The value of a named header. -/
def getHeader : List (String × String) → String → Option String
  | [], _ => none
  | (k', v') :: rest, k => if k' = k then some v' else getHeader rest k

/-- Whether the second list is a prefix of the first. -/
def startsWith : List Nat → List Nat → Bool
  | _, [] => true
  | [], _ :: _ => false
  | a :: s, b :: p => a == b && startsWith s p

/-- Whether the second list occurs contiguously inside the first. -/
def containsSeq : List Nat → List Nat → Bool
  | [], pat => startsWith [] pat
  | a :: rest, pat => startsWith (a :: rest) pat || containsSeq rest pat

/-- `req.url.includes('amazoncognito')` over UTF-16 code units. -/
def urlHasCognito (u : String) : Bool :=
  containsSeq (codes u) (codes "amazoncognito")

/-- `AuthInterceptor.intercept`: the request forwarded to the next handler. -/
def intercept (token : String) (req : HttpReq) : HttpReq :=
  if token = "" || urlHasCognito req.url then req
  else { req with headers := setHeader req.headers "Authorization" ("Bearer " ++ token) }

theorem getHeader_setHeader_self (hs : List (String × String)) (k v : String) :
    getHeader (setHeader hs k v) k = some v := by
  induction hs with
  | nil => simp [setHeader, getHeader]
  | cons p rest ih =>
    obtain ⟨k', v'⟩ := p
    by_cases h : k' = k <;> simp [setHeader, getHeader, h, ih]

theorem getHeader_setHeader_ne (hs : List (String × String)) {k k' : String}
    (v : String) (h : k' ≠ k) :
    getHeader (setHeader hs k v) k' = getHeader hs k' := by
  induction hs with
  | nil => simp [setHeader, getHeader, Ne.symm h]
  | cons p rest ih =>
    obtain ⟨k'', v''⟩ := p
    by_cases hk : k'' = k
    · subst hk
      simp [setHeader, getHeader, Ne.symm h]
    · simp only [setHeader, if_neg hk, getHeader]
      by_cases hk' : k'' = k' <;> simp [hk', ih]

/-- C9: the auth interceptor forwards the request completely unchanged when
no ID token is available or the URL contains "amazoncognito"; otherwise the
forwarded request differs from the original only in that its Authorization
header is set to "Bearer " followed by the token — URL, method, body and
every other header are unchanged. -/
theorem C9_auth_interceptor :
    ∀ (token : String) (req : HttpReq),
      ((token = "" ∨ urlHasCognito req.url = true) → intercept token req = req) ∧
      (token ≠ "" → urlHasCognito req.url = false →
        (intercept token req).url = req.url ∧
        (intercept token req).method = req.method ∧
        (intercept token req).body = req.body ∧
        getHeader (intercept token req).headers "Authorization" =
          some ("Bearer " ++ token) ∧
        ∀ k, k ≠ "Authorization" →
          getHeader (intercept token req).headers k = getHeader req.headers k) := by
  intro token req
  constructor
  · rintro (h | h) <;> simp [intercept, h]
  · intro ht hu
    have hint : intercept token req =
        { req with
          headers := setHeader req.headers "Authorization" ("Bearer " ++ token) } := by
      simp [intercept, ht, hu]
    rw [hint]
    exact ⟨rfl, rfl, rfl, getHeader_setHeader_self req.headers _ _,
      fun k hk => getHeader_setHeader_ne req.headers _ hk⟩

theorem C9_auth_interceptor_witness :
    getHeader
        (intercept "tok"
          { url := "https://api.example.com/acmecorp/products", method := "GET",
            body := "", headers := [("Accept", "application/json")] }).headers
        "Authorization" = some ("Bearer " ++ "tok") :=
  ((C9_auth_interceptor "tok"
      { url := "https://api.example.com/acmecorp/products", method := "GET",
        body := "", headers := [("Accept", "application/json")] }).2
    (by decide) (by decide)).2.2.2.1

/-! ## Order totals in the application client

From `OrdersDetailComponent`: `subTotal` maps each order product to
`price * quantity` and reduces with `+` and **no initial value** —
`Array.prototype.reduce` without an initial value is undefined on an empty
array — `calcTax` multiplies by `taxRate = .0899`, and `final` adds the
two.  Numbers are modelled as exact rationals. -/

/-- One line of an order. -/
structure OrderProduct where
  price : ℚ
  quantity : ℚ
deriving DecidableEq, Repr

/-- An order: its product lines. -/
structure Order where
  orderProduct : List OrderProduct
deriving DecidableEq, Repr

/-- `this.taxRate = .0899`. -/
def taxRate : ℚ := 899 / 10000

/-- `Array.prototype.reduce((acc, curr) => acc + curr)` with no initial
value: undefined on an empty array, else a left fold from the first
element. -/
def reduceAdd : List ℚ → Option ℚ
  | [] => none
  | x :: xs => some (xs.foldl (· + ·) x)

/-- `subTotal(order)`. -/
def subTotal (o : Order) : Option ℚ :=
  reduceAdd (o.orderProduct.map (fun op => op.price * op.quantity))

/-- `calcTax(order) = subTotal(order) * taxRate`. -/
def calcTax (o : Order) : Option ℚ :=
  (subTotal o).map (fun s => s * taxRate)

/-- `final(order) = subTotal(order) + calcTax(order)`. -/
def final (o : Order) : Option ℚ :=
  match subTotal o, calcTax o with
  | some s, some t => some (s + t)
  | _, _ => none

theorem foldl_add_eq (a : ℚ) (xs : List ℚ) : xs.foldl (· + ·) a = a + xs.sum := by
  induction xs generalizing a with
  | nil => simp
  | cons x xs ih => simp [ih, add_assoc]

theorem reduceAdd_eq_sum (x : ℚ) (xs : List ℚ) :
    reduceAdd (x :: xs) = some ((x :: xs).sum) := by
  simp [reduceAdd, foldl_add_eq]

/-- C10: for an order with a non-empty product list, subTotal is the sum of
price times quantity over its lines and final equals subTotal times
(1 + 0.0899); for an order with an empty product list, subTotal — and with
it calcTax and final — is undefined, because the source reduces the empty
array with no initial value. -/
theorem C10_order_totals :
    ∀ o : Order,
      (o.orderProduct ≠ [] →
        subTotal o =
          some ((o.orderProduct.map (fun op => op.price * op.quantity)).sum) ∧
        final o = (subTotal o).map (fun s => s * (1 + taxRate))) ∧
      (o.orderProduct = [] →
        subTotal o = none ∧ calcTax o = none ∧ final o = none) := by
  intro o
  constructor
  · intro hne
    obtain ⟨op, ops, hcons⟩ := List.exists_cons_of_ne_nil hne
    have hsub : subTotal o =
        some ((o.orderProduct.map (fun op => op.price * op.quantity)).sum) := by
      rw [subTotal, hcons, List.map_cons, reduceAdd_eq_sum]
    have hcalc : calcTax o =
        some ((o.orderProduct.map (fun op => op.price * op.quantity)).sum * taxRate) := by
      rw [calcTax, hsub]
      rfl
    refine ⟨hsub, ?_⟩
    unfold final
    rw [hsub, hcalc]
    exact congrArg some (by ring)
  · intro h
    simp [subTotal, calcTax, final, h, reduceAdd]

theorem C10_order_totals_witness :
    subTotal { orderProduct := [⟨3, 2⟩, ⟨5, 1⟩] } =
      some ((([⟨3, 2⟩, ⟨5, 1⟩] : List OrderProduct).map
        (fun op => op.price * op.quantity)).sum) :=
  ((C10_order_totals { orderProduct := [⟨3, 2⟩, ⟨5, 1⟩] }).1
    (by simp)).1
